import Mathlib

/-!
# Verification of the graphprac attributed-graph core

A shallow embedding of the attributed undirected graph store and the
attribute-driven query/aggregation utilities of the `graphprac` Go package
(`graph.go` / `analysis.go`, current revision: the gonum v0.7.0 API files),
together with proofs of the spec's testable properties.

Embedding conventions:
- Go slices become `List`, `int64` becomes `Int`, Go maps keyed by node ID
  become association searches over the node list (node IDs are unique).
- The node/edge store `simple.UndirectedGraph` is vendored from gonum and is
  not part of this repository's sources; where its behaviour decides a
  property it is modelled from the spec (each such definition carries a
  `Modelled from the spec:` doc comment).
- Fallible operations return `Except`; the Go float parser is modelled over
  exact decimal rationals.
-/

set_option maxHeartbeats 1600000

namespace Graphprac

/-- A single DOT attribute, `encoding.Attribute` in the Go sources:
a (key, value) string pair. -/
structure Attribute where
  Key : String
  Value : String
deriving DecidableEq

/-- `Attributes` (graph.go): an ordered list of DOT attributes. -/
abbrev Attributes := List Attribute

/-- `Attributes.Get` (graph.go lines 111-118): linear scan for the first pair
with the given key; returns its value, or the empty string if the key is
absent. -/
def Attributes.get (a : Attributes) (attr : String) : String :=
  match a.find? (fun kv => kv.Key == attr) with
  | some kv => kv.Value
  | none => ""

/-- `Attributes.SetAttribute` (graph.go lines 127-140): scan for the first
pair whose key matches. If found and the new value is non-empty, overwrite
the value in place; if found and the new value is empty, remove the pair by
swapping it with the last pair and truncating. If no pair matches, append
the new pair (even when its value is empty). -/
def Attributes.setAttribute : Attributes → Attribute → Attributes
  | [], kv => [kv]
  | x :: xs, kv =>
    if x.Key == kv.Key then
      if kv.Value = "" then
        match xs with
        | [] => []
        | y :: ys => (y :: ys).getLast (by simp) :: (y :: ys).dropLast
      else { Key := x.Key, Value := kv.Value } :: xs
    else x :: Attributes.setAttribute xs kv

/-- If no pair of the bag carries key `k`, `get` returns the empty string. -/
theorem Attributes.get_of_forall_key_ne (a : Attributes) (k : String)
    (h : ∀ p ∈ a, p.Key ≠ k) : a.get k = "" := by
  unfold Attributes.get
  have hf : a.find? (fun kv => kv.Key == k) = none := by
    rw [List.find?_eq_none]
    intro p hp
    simpa using h p hp
  rw [hf]

/-- Setting a non-empty value makes `get` return that value, for every bag. -/
theorem Attributes.get_setAttribute_nonempty (a : Attributes) (k v : String)
    (hv : v ≠ "") : (a.setAttribute { Key := k, Value := v }).get k = v := by
  induction a with
  | nil => simp [Attributes.setAttribute, Attributes.get, List.find?]
  | cons x xs ih =>
    by_cases hx : x.Key = k
    · simp [Attributes.setAttribute, hx, hv, Attributes.get, List.find?]
    · have hbeq : (x.Key == k) = false := by simpa using hx
      simp only [Attributes.setAttribute, hbeq, Bool.false_eq_true, if_false]
      unfold Attributes.get at ih ⊢
      simp only [List.find?, hbeq]
      exact ih

/-- Elements of the bag produced by an empty-valued `setAttribute` on a bag
whose head key matches all come from the tail of the original bag. -/
theorem Attributes.mem_swapDelete {y : Attribute} {ys : List Attribute}
    {p : Attribute} (hp : p ∈ (y :: ys).getLast (by simp) :: (y :: ys).dropLast) :
    p ∈ y :: ys := by
  rcases List.mem_cons.1 hp with h | h
  · rw [h]; exact List.getLast_mem _
  · exact List.dropLast_subset _ h

/-- Setting the empty value removes the key: afterwards `get` returns the
empty string, provided the bag's keys are duplicate-free (the AttributeBag
invariant: key uniqueness is enforced on write). -/
theorem Attributes.get_setAttribute_empty (a : Attributes) (k : String)
    (hnd : (a.map Attribute.Key).Nodup) :
    (a.setAttribute { Key := k, Value := "" }).get k = "" := by
  induction a with
  | nil => simp [Attributes.setAttribute, Attributes.get, List.find?]
  | cons x xs ih =>
    by_cases hx : x.Key = k
    · have hbeq : (x.Key == k) = true := by simpa using hx
      simp only [Attributes.setAttribute, hbeq, if_true, if_pos rfl]
      match xs, hnd with
      | [], _ => simp [Attributes.get, List.find?]
      | y :: ys, hnd =>
        have hxs : ∀ p ∈ (y :: ys), p.Key ≠ k := by
          intro p hp
          have hx' : x.Key ∉ (y :: ys).map Attribute.Key :=
            (List.nodup_cons.1 (by simpa using hnd)).1
          intro hpk
          exact hx' (by rw [← hx, ← hpk] at *; exact List.mem_map_of_mem _ hp)
        exact Attributes.get_of_forall_key_ne _ k
          (fun p hp => hxs p (Attributes.mem_swapDelete hp))
    · have hbeq : (x.Key == k) = false := by simpa using hx
      simp only [Attributes.setAttribute, hbeq, Bool.false_eq_true, if_false]
      unfold Attributes.get at ih ⊢
      simp only [List.find?, hbeq]
      exact ih (by simpa using (List.nodup_cons.1 (by simpa using hnd)).2)

/-- `setAttribute` on a bag that does not carry the key appends the pair,
whatever its value. -/
theorem Attributes.setAttribute_absent (a : Attributes) (kv : Attribute)
    (h : ∀ p ∈ a, p.Key ≠ kv.Key) :
    a.setAttribute kv = a ++ [kv] := by
  induction a with
  | nil => simp [Attributes.setAttribute]
  | cons x xs ih =>
    have hbeq : (x.Key == kv.Key) = false := by
      simpa using h x (List.mem_cons_self x xs)
    simp only [Attributes.setAttribute, hbeq, Bool.false_eq_true, if_false,
      List.cons_append, List.cons.injEq, true_and]
    exact ih (fun p hp => h p (List.mem_cons_of_mem _ hp))

/-- `get` skips a prefix none of whose pairs carry the queried key. -/
theorem Attributes.get_append_left_absent (a l : Attributes) (k : String)
    (h : ∀ p ∈ a, p.Key ≠ k) : Attributes.get (a ++ l) k = Attributes.get l k := by
  induction a with
  | nil => simp
  | cons x xs ih =>
    have hbeq : (x.Key == k) = false := by simpa using h x (List.mem_cons_self x xs)
    unfold Attributes.get at ih ⊢
    simp only [List.cons_append, List.find?, hbeq]
    exact ih (fun p hp => h p (List.mem_cons_of_mem _ hp))

/-- C2: for every attribute bag, key `k` and value `v`: `Get(k)` immediately
after `Set(k, v)` with `v` non-empty returns `v`; `Set(k, "")` followed by
`Get(k)` returns the empty string (under the AttributeBag key-uniqueness
invariant); and `Get` on an absent key returns the empty string without
error. -/
theorem claim_C2 (a : Attributes) (k v : String) :
    (v ≠ "" → (a.setAttribute { Key := k, Value := v }).get k = v) ∧
    ((a.map Attribute.Key).Nodup →
      (a.setAttribute { Key := k, Value := "" }).get k = "") ∧
    ((∀ p ∈ a, p.Key ≠ k) → a.get k = "") :=
  ⟨fun hv => Attributes.get_setAttribute_nonempty a k v hv,
   fun hnd => Attributes.get_setAttribute_empty a k hnd,
   fun h => Attributes.get_of_forall_key_ne a k h⟩

/-- A concrete one-entry attribute bag used by the claim witnesses. -/
def bagW : Attributes := [{ Key := "x", Value := "1" }]

/-- Witness for C2 at the concrete bag `[("x", "1")]`, key `"score"`,
value `"7"`. -/
theorem claim_C2_witness :
    (("7" : String) ≠ "" ∧ ((bagW.map Attribute.Key).Nodup) ∧
      (∀ p ∈ bagW, p.Key ≠ "score")) ∧
    (Attributes.get (Attributes.setAttribute bagW { Key := "score", Value := "7" })
        "score" = "7" ∧
      Attributes.get (Attributes.setAttribute bagW { Key := "score", Value := "" })
        "score" = "" ∧
      Attributes.get bagW "score" = "") :=
  ⟨⟨by decide, by decide, by decide⟩,
   (claim_C2 bagW "score" "7").1 (by decide),
   (claim_C2 bagW "score" "7").2.1 (by decide),
   (claim_C2 bagW "score" "7").2.2 (by decide)⟩

/-- C10: setting an empty value for a key not present in the bag appends a
`(k, "")` pair: the bag grows by one, afterwards contains that pair, and
`Get(k)` still returns the empty string. -/
theorem claim_C10 (a : Attributes) (k : String) (h : ∀ p ∈ a, p.Key ≠ k) :
    (a.setAttribute { Key := k, Value := "" }).length = a.length + 1 ∧
    ({ Key := k, Value := "" } : Attribute) ∈
      a.setAttribute { Key := k, Value := "" } ∧
    (a.setAttribute { Key := k, Value := "" }).get k = "" := by
  have happ := Attributes.setAttribute_absent a { Key := k, Value := "" } h
  refine ⟨by rw [happ]; simp, by rw [happ]; simp, ?_⟩
  rw [happ, Attributes.get_append_left_absent a _ k h]
  simp [Attributes.get, List.find?]

/-- Witness for C10 at the concrete bag `[("x", "1")]` and key
`"clique_count"`. -/
theorem claim_C10_witness :
    (∀ p ∈ bagW, p.Key ≠ "clique_count") ∧
    ((Attributes.setAttribute bagW { Key := "clique_count", Value := "" }).length
        = bagW.length + 1 ∧
      ({ Key := "clique_count", Value := "" } : Attribute) ∈
        Attributes.setAttribute bagW { Key := "clique_count", Value := "" } ∧
      Attributes.get (Attributes.setAttribute bagW { Key := "clique_count", Value := "" })
        "clique_count" = "") :=
  ⟨by decide, claim_C10 bagW "clique_count" (by decide)⟩

/-- `Node` (graph.go): integer ID (`int64`), display name, one attribute
bag. -/
structure Node where
  NodeID : Int
  Name : String
  attrs : Attributes
deriving DecidableEq

/-- `Edge` (graph.go): references to the two endpoint nodes plus one
attribute bag. Undirected: `(a, b)` and `(b, a)` denote the same edge. -/
structure Edge where
  F : Node
  T : Node
  attrs : Attributes
deriving DecidableEq

/-- `Graph` (graph.go): the embedded `simple.UndirectedGraph` node/edge store
(modelled as explicit node and edge lists) plus the three bags of default
DOT attributes. -/
structure Graph where
  nodes : List Node
  edges : List Edge
  GraphAttrs : Attributes
  NodeAttrs : Attributes
  EdgeAttrs : Attributes
deriving DecidableEq

/-- Modelled from the spec: `simple.UndirectedGraph.Node(id)` (gonum, not
under src/). Spec §4.2 `NodeByID(id) -> Node or not-found`: returns the
registered node with the given ID, or an absent result. -/
def Graph.NodeById (g : Graph) (id : Int) : Option Node :=
  g.nodes.find? (fun n => n.NodeID == id)

/-- Whether an edge connects the two given node IDs, in either
orientation. -/
def Edge.connects (e : Edge) (x y : Int) : Bool :=
  (e.F.NodeID == x && e.T.NodeID == y) || (e.F.NodeID == y && e.T.NodeID == x)

/-- Modelled from the spec: `simple.UndirectedGraph.EdgeBetween` / `Edge`
(gonum, not under src/). Spec §4.2 `EdgeBetween(idA, idB) -> Edge or
not-found`, symmetric in its arguments. -/
def Graph.EdgeBetween (g : Graph) (x y : Int) : Option Edge :=
  g.edges.find? (fun e => e.connects x y)

/-- The structural error taxonomy of spec §7 for add-edge failures. -/
inductive StructuralError where
  | SelfLoopError : StructuralError
  | InvalidEndpointError : StructuralError
deriving DecidableEq

/-- Modelled from the spec: `simple.UndirectedGraph.SetEdge` (gonum, not
under src/). Spec §4.2: recording an edge fails with `SelfLoopError` when
the endpoints coincide and with `InvalidEndpointError` when an endpoint is
not registered in the graph; otherwise the edge is recorded for both
endpoints. On failure the graph is unchanged (no new graph is produced). -/
def Graph.SetEdge (g : Graph) (e : Edge) : Except StructuralError Graph :=
  if e.F.NodeID = e.T.NodeID then .error .SelfLoopError
  else if (g.NodeById e.F.NodeID).isNone || (g.NodeById e.T.NodeID).isNone then
    .error .InvalidEndpointError
  else .ok { g with edges := g.edges ++ [e] }

/-- `Graph.NewEdge` (graph.go lines 51-58): return the existing edge between
the endpoints if there is one; otherwise build a fresh edge and record it
with `SetEdge`. -/
def Graph.NewEdge (g : Graph) (f t : Node) : Except StructuralError (Graph × Edge) :=
  match g.EdgeBetween f.NodeID t.NodeID with
  | some e => .ok (g, e)
  | none =>
    let e : Edge := { F := f, T := t, attrs := [] }
    match g.SetEdge e with
    | .ok g' => .ok (g', e)
    | .error err => .error err

/-- A fresh node ID: one more than the largest ID registered in the graph
(and at least one). -/
def Graph.freshId (g : Graph) : Int :=
  (g.nodes.foldr (fun n m => max n.NodeID m) 0) + 1

/-- `Graph.NewNode` (graph.go lines 45-47). The underlying ID allocation and
registration are performed by `simple.UndirectedGraph` (gonum, not under
src/), modelled from the spec: §4.2 `AddNode() -> Node` allocates a new node
with a fresh Graph-unique integer ID, registers it and returns it. -/
def Graph.NewNode (g : Graph) : Graph × Node :=
  let n : Node := { NodeID := g.freshId, Name := "", attrs := [] }
  ({ g with nodes := g.nodes ++ [n] }, n)

/-- The spec §3 Graph invariants used by the add-edge claims: no self-loops,
and every edge endpoint is registered in the graph. -/
def Graph.WF (g : Graph) : Prop :=
  (∀ e ∈ g.edges, e.F.NodeID ≠ e.T.NodeID) ∧
  (∀ e ∈ g.edges, (g.NodeById e.F.NodeID).isSome ∧ (g.NodeById e.T.NodeID).isSome)

instance (g : Graph) : Decidable g.WF := by
  unfold Graph.WF
  infer_instance

/-- Every registered ID is bounded by the fold computing `freshId`. -/
theorem Graph.nodeId_le_fold (l : List Node) (n : Node) (hn : n ∈ l) :
    n.NodeID ≤ l.foldr (fun n m => max n.NodeID m) 0 := by
  induction l with
  | nil => cases hn
  | cons x xs ih =>
    rcases List.mem_cons.1 hn with h | h
    · rw [h]; exact le_max_left _ _
    · exact le_trans (ih h) (le_max_right _ _)

/-- `find?` skips a prefix on which the predicate never fires. -/
theorem find?_append_of_none {α : Type} (p : α → Bool) (l1 l2 : List α)
    (h : l1.find? p = none) : (l1 ++ l2).find? p = l2.find? p := by
  induction l1 with
  | nil => simp
  | cons x xs ih =>
    have hx : p x = false := by
      by_contra hpx
      rw [List.find?_cons_of_pos _ (by simpa using hpx)] at h
      cases h
    rw [List.find?_cons_of_neg _ (by simp [hx])] at h
    simp only [List.cons_append]
    rw [List.find?_cons_of_neg _ (by simp [hx]), ih h]

/-- C7: `NewNode` allocates a node with a fresh integer ID unique within the
graph, registers it in the node collection and returns it; immediately
afterwards the returned node is found by an ID lookup and appears in node
enumeration. -/
theorem claim_C7 (g : Graph) :
    (∀ m ∈ g.nodes, m.NodeID ≠ (g.NewNode).2.NodeID) ∧
    (g.NewNode).1.NodeById (g.NewNode).2.NodeID = some (g.NewNode).2 ∧
    (g.NewNode).2 ∈ (g.NewNode).1.nodes := by
  have hfresh : ∀ m ∈ g.nodes, m.NodeID ≠ (g.NewNode).2.NodeID := by
    intro m hm
    have := Graph.nodeId_le_fold g.nodes m hm
    simp only [Graph.NewNode, Graph.freshId]
    omega
  refine ⟨hfresh, ?_, ?_⟩
  · show ((g.NewNode).1.nodes).find? _ = _
    have hnone : g.nodes.find?
        (fun n => n.NodeID == (g.NewNode).2.NodeID) = none := by
      rw [List.find?_eq_none]
      intro m hm
      simpa using hfresh m hm
    have : (g.NewNode).1.nodes = g.nodes ++ [(g.NewNode).2] := rfl
    rw [this, find?_append_of_none _ _ _ hnone]
    simp [List.find?]
  · show (g.NewNode).2 ∈ g.nodes ++ [(g.NewNode).2]
    simp

/-- C3: for distinct registered endpoints with no edge yet between them,
calling `NewEdge` twice yields the same edge both times and grows the edge
count by exactly one across both calls. -/
theorem claim_C3 (g : Graph) (a b : Node) (hab : a.NodeID ≠ b.NodeID)
    (ha : (g.NodeById a.NodeID).isSome) (hb : (g.NodeById b.NodeID).isSome)
    (hnew : g.EdgeBetween a.NodeID b.NodeID = none) :
    ∃ g1 e, g.NewEdge a b = .ok (g1, e) ∧ g1.NewEdge a b = .ok (g1, e) ∧
      g1.edges.length = g.edges.length + 1 := by
  obtain ⟨x, hx⟩ := Option.isSome_iff_exists.1 ha
  obtain ⟨y, hy⟩ := Option.isSome_iff_exists.1 hb
  set e : Edge := { F := a, T := b, attrs := [] } with he
  set g1 : Graph := { g with edges := g.edges ++ [e] } with hg1
  have hset : g.SetEdge e = .ok g1 := by
    simp [Graph.SetEdge, hab, hx, hy]
  have hconn : e.connects a.NodeID b.NodeID = true := by
    simp [Edge.connects]
  have hfound : g1.EdgeBetween a.NodeID b.NodeID = some e := by
    show (g.edges ++ [e]).find? _ = some e
    rw [find?_append_of_none _ _ _ hnew]
    simp [List.find?, hconn]
  refine ⟨g1, e, ?_, ?_, by simp [hg1]⟩
  · simp [Graph.NewEdge, hnew, hset]
  · simp [Graph.NewEdge, hfound]

/-- C6: `NewEdge` with both endpoints equal fails with `SelfLoopError`, and
with a distinct unregistered endpoint fails with `InvalidEndpointError`; in
either case no graph with a new edge is produced. -/
theorem claim_C6 (g : Graph) (a f t : Node) (hwf : g.WF)
    (hft : f.NodeID ≠ t.NodeID)
    (hreg : (g.NodeById f.NodeID).isNone ∨ (g.NodeById t.NodeID).isNone) :
    g.NewEdge a a = .error .SelfLoopError ∧
    g.NewEdge f t = .error .InvalidEndpointError := by
  constructor
  · have hnone : g.EdgeBetween a.NodeID a.NodeID = none := by
      rw [Graph.EdgeBetween, List.find?_eq_none]
      intro e he
      have hne := hwf.1 e he
      intro hc
      have hc' : ((e.F.NodeID == a.NodeID) = true ∧ (e.T.NodeID == a.NodeID) = true) ∨
          ((e.F.NodeID == a.NodeID) = true ∧ (e.T.NodeID == a.NodeID) = true) := by
        simpa only [Edge.connects, Bool.or_eq_true, Bool.and_eq_true] using hc
      rcases hc' with ⟨h1, h2⟩ | ⟨h1, h2⟩ <;>
        exact hne ((eq_of_beq h1).trans (eq_of_beq h2).symm)
    have hself : g.SetEdge { F := a, T := a, attrs := [] } =
        .error .SelfLoopError := by
      simp [Graph.SetEdge]
    simp [Graph.NewEdge, hnone, hself]
  · have hnone : g.EdgeBetween f.NodeID t.NodeID = none := by
      rw [Graph.EdgeBetween, List.find?_eq_none]
      intro e he
      obtain ⟨hsF, hsT⟩ := hwf.2 e he
      intro hc
      have hc' : ((e.F.NodeID == f.NodeID) = true ∧ (e.T.NodeID == t.NodeID) = true) ∨
          ((e.F.NodeID == t.NodeID) = true ∧ (e.T.NodeID == f.NodeID) = true) := by
        simpa only [Edge.connects, Bool.or_eq_true, Bool.and_eq_true] using hc
      rcases hc' with ⟨h1, h2⟩ | ⟨h1, h2⟩
      · rw [eq_of_beq h1] at hsF
        rw [eq_of_beq h2] at hsT
        rcases hreg with hr | hr
        · rw [Option.isNone_iff_eq_none.1 hr] at hsF; cases hsF
        · rw [Option.isNone_iff_eq_none.1 hr] at hsT; cases hsT
      · rw [eq_of_beq h1] at hsF
        rw [eq_of_beq h2] at hsT
        rcases hreg with hr | hr
        · rw [Option.isNone_iff_eq_none.1 hr] at hsT; cases hsT
        · rw [Option.isNone_iff_eq_none.1 hr] at hsF; cases hsF
    have hinv : g.SetEdge { F := f, T := t, attrs := [] } =
        .error .InvalidEndpointError := by
      rcases hreg with hr | hr <;>
        simp [Graph.SetEdge, hft, Option.isNone_iff_eq_none.1 hr]
    simp [Graph.NewEdge, hnone, hinv]

/-- Concrete nodes and a two-node, edge-free graph for the add-edge claim
witnesses. -/
def nW1 : Node := { NodeID := 1, Name := "a", attrs := [] }

/-- Second concrete node of the witness graph. -/
def nW2 : Node := { NodeID := 2, Name := "b", attrs := [] }

/-- A node not registered in the witness graph. -/
def nW3 : Node := { NodeID := 3, Name := "c", attrs := [] }

/-- The witness graph: nodes 1 and 2, no edges. -/
def gW : Graph :=
  { nodes := [nW1, nW2], edges := [], GraphAttrs := [], NodeAttrs := [],
    EdgeAttrs := [] }

/-- Witness for C7: adding a node to the two-node witness graph. -/
theorem claim_C7_witness :
    (∀ m ∈ gW.nodes, m.NodeID ≠ (gW.NewNode).2.NodeID) ∧
    (gW.NewNode).1.NodeById (gW.NewNode).2.NodeID = some (gW.NewNode).2 ∧
    (gW.NewNode).2 ∈ (gW.NewNode).1.nodes :=
  claim_C7 gW

/-- Witness for C3: adding the edge 1-2 twice to the two-node graph. -/
theorem claim_C3_witness :
    (nW1.NodeID ≠ nW2.NodeID ∧ (gW.NodeById nW1.NodeID).isSome ∧
      (gW.NodeById nW2.NodeID).isSome ∧
      gW.EdgeBetween nW1.NodeID nW2.NodeID = none) ∧
    (∃ g1 e, gW.NewEdge nW1 nW2 = .ok (g1, e) ∧
      g1.NewEdge nW1 nW2 = .ok (g1, e) ∧
      g1.edges.length = gW.edges.length + 1) :=
  ⟨⟨by decide, by decide, by decide, by decide⟩,
   claim_C3 gW nW1 nW2 (by decide) (by decide) (by decide) (by decide)⟩

/-- Witness for C6: the self-loop 1-1 and the edge 1-3 to the unregistered
node 3 on the two-node graph. -/
theorem claim_C6_witness :
    (gW.WF ∧ nW1.NodeID ≠ nW3.NodeID ∧
      ((gW.NodeById nW1.NodeID).isNone ∨ (gW.NodeById nW3.NodeID).isNone)) ∧
    (gW.NewEdge nW1 nW1 = .error .SelfLoopError ∧
      gW.NewEdge nW1 nW3 = .error .InvalidEndpointError) :=
  ⟨⟨by decide, by decide, by decide⟩,
   claim_C6 gW nW1 nW1 nW3 (by decide) (by decide) (by decide)⟩

/-- An exact decimal number `num / 10 ^ exp`, the value domain of parsed
attribute values. -/
structure Dec where
  num : Int
  exp : Nat
deriving DecidableEq

/-- The decimal zero, the rank of an entity missing the queried attribute. -/
def Dec.zero : Dec := { num := 0, exp := 0 }

/-- Comparison of decimals by cross multiplication. -/
protected def Dec.le (a b : Dec) : Prop :=
  a.num * 10 ^ b.exp ≤ b.num * 10 ^ a.exp

instance (a b : Dec) : Decidable (Dec.le a b) := by
  unfold Dec.le
  infer_instance

theorem Dec.le_total (a b : Dec) : Dec.le a b ∨ Dec.le b a :=
  Int.le_total _ _

theorem Dec.le_trans {a b c : Dec} (hab : Dec.le a b) (hbc : Dec.le b c) :
    Dec.le a c := by
  unfold Dec.le at *
  have h10 : (0 : Int) < 10 ^ b.exp := pow_pos (by norm_num) _
  have h1 : a.num * 10 ^ b.exp * 10 ^ c.exp ≤ b.num * 10 ^ a.exp * 10 ^ c.exp :=
    mul_le_mul_of_nonneg_right hab (by positivity)
  have h2 : b.num * 10 ^ c.exp * 10 ^ a.exp ≤ c.num * 10 ^ b.exp * 10 ^ a.exp :=
    mul_le_mul_of_nonneg_right hbc (by positivity)
  have h3 : a.num * 10 ^ c.exp * 10 ^ b.exp ≤ c.num * 10 ^ a.exp * 10 ^ b.exp := by
    calc a.num * 10 ^ c.exp * 10 ^ b.exp = a.num * 10 ^ b.exp * 10 ^ c.exp := by ring
    _ ≤ b.num * 10 ^ a.exp * 10 ^ c.exp := h1
    _ = b.num * 10 ^ c.exp * 10 ^ a.exp := by ring
    _ ≤ c.num * 10 ^ b.exp * 10 ^ a.exp := h2
    _ = c.num * 10 ^ a.exp * 10 ^ b.exp := by ring
  exact le_of_mul_le_mul_right h3 h10

/-- The numeric value of a digit string via the usual left fold. -/
def digitsVal (cs : List Char) : Nat :=
  cs.foldl (fun acc c => acc * 10 + (c.toNat - 48)) 0

/-- Modelled from the spec: `strconv.ParseFloat` (Go standard library, not
under src/), restricted to the plain decimal forms the spec's numeric
attributes use: an optional sign, an integer digit run, and an optional
fractional digit run after a dot; at least one digit must be present.
Any other string is a parse failure (the spec's non-numeric values). The
result is the exact decimal value. -/
def parseFloat (s : String) : Option Dec :=
  let cs := s.toList
  let sgncs : Int × List Char :=
    match cs with
    | '-' :: rest => (-1, rest)
    | '+' :: rest => (1, rest)
    | _ => (1, cs)
  let ip := sgncs.2.takeWhile Char.isDigit
  let rest := sgncs.2.dropWhile Char.isDigit
  match rest with
  | [] =>
    if ip.isEmpty then none
    else some { num := sgncs.1 * digitsVal ip, exp := 0 }
  | '.' :: fr =>
    if fr.all Char.isDigit && !(ip.isEmpty && fr.isEmpty) then
      some { num := sgncs.1 * (digitsVal ip * 10 ^ fr.length + digitsVal fr),
             exp := fr.length }
    else none
  | _ => none

/-- The descending-rank relation of `nodesByAttr.Less` / `edgesByAttr.Less`
(analysis.go): earlier entries carry the larger parsed value. -/
def descRel {α : Type} (p q : Dec × α) : Prop := Dec.le q.1 p.1

instance {α : Type} : DecidableRel (descRel (α := α)) :=
  fun p q => (inferInstance : Decidable (Dec.le q.1 p.1))

instance {α : Type} : IsTotal (Dec × α) descRel :=
  ⟨fun p q => show Dec.le q.1 p.1 ∨ Dec.le p.1 q.1 from Dec.le_total q.1 p.1⟩

instance {α : Type} : IsTrans (Dec × α) descRel :=
  ⟨fun _ _ _ hab hbc => show Dec.le _ _ from Dec.le_trans hbc hab⟩

/-- The error taxonomy of spec §7 for ranking failures: a present attribute
value that does not parse as a number, carrying the offending text. -/
inductive AnalysisError where
  | ParseError : String → AnalysisError
deriving DecidableEq

/-- The value-collection loop shared by `NodesByAttribute` and
`EdgesByAttribute` (analysis.go): for each entity in enumeration order,
take the first attribute pair with the queried key and parse it (failing
with a parse error on non-numeric text), or use zero when the key is
absent; pair the parsed value with the entity. -/
def rankVals {α : Type} (attr : String) (abag : α → Attributes) :
    List α → Except AnalysisError (List (Dec × α))
  | [] => .ok []
  | x :: xs =>
    match (abag x).find? (fun a => a.Key == attr) with
    | some a =>
      match parseFloat a.Value with
      | some v => (rankVals attr abag xs).map (fun ps => (v, x) :: ps)
      | none => .error (.ParseError a.Value)
    | none => (rankVals attr abag xs).map (fun ps => (Dec.zero, x) :: ps)

/-- `NodesByAttribute` (analysis.go lines 184-205 of the current revision):
collect the parsed value of the given attribute for every node, then return
the nodes sorted descending by value. Go's `sort.Sort` (standard library,
not under src/) is modelled by insertion sort with the same `Less` relation,
matching its documented contract (a permutation ordered by `Less`). -/
def NodesByAttribute (attr : String) (g : Graph) :
    Except AnalysisError (List Node) :=
  (rankVals attr Node.attrs g.nodes).map
    (fun ps => (List.insertionSort descRel ps).map Prod.snd)

/-- `EdgesByAttribute` (analysis.go lines 219-242 of the current revision):
the edge analogue of `NodesByAttribute`. -/
def EdgesByAttribute (attr : String) (g : Graph) :
    Except AnalysisError (List Edge) :=
  (rankVals attr Edge.attrs g.edges).map
    (fun ps => (List.insertionSort descRel ps).map Prod.snd)

/-- The rank value of an attribute bag: the parsed value of the first pair
with the queried key, or zero when the key is absent. -/
def attrValue (attr : String) (a : Attributes) : Dec :=
  match a.find? (fun p => p.Key == attr) with
  | some p => (parseFloat p.Value).getD Dec.zero
  | none => Dec.zero

/-- Whether the bag carries the queried key with a value that fails to
parse as a number. -/
def hasBadValueB (attr : String) (a : Attributes) : Bool :=
  match a.find? (fun p => p.Key == attr) with
  | some p => (parseFloat p.Value).isNone
  | none => false

/-- Inversion of `Except.map` at a success value. -/
theorem exceptMap_ok {ε α β : Type} {f : α → β} {e : Except ε α} {b : β}
    (h : e.map f = .ok b) : ∃ a, e = .ok a ∧ b = f a := by
  cases e with
  | ok a => exact ⟨a, rfl, by cases h; rfl⟩
  | error err => cases h

/-- `Except.map` preserves failures unchanged. -/
theorem exceptMap_error {ε α β : Type} {f : α → β} {e : Except ε α} {err : ε}
    (h : e.map f = .error err) : e = .error err := by
  cases e with
  | ok a => cases h
  | error e2 => cases h; rfl

/-- A successful value collection pairs every entity, in order, with the
rank value of its bag. -/
theorem rankVals_ok {α : Type} (attr : String) (abag : α → Attributes)
    (l : List α) (ps : List (Dec × α)) (h : rankVals attr abag l = .ok ps) :
    ps.map Prod.snd = l ∧ ∀ p ∈ ps, p.1 = attrValue attr (abag p.2) := by
  induction l generalizing ps with
  | nil =>
    cases h
    exact ⟨rfl, by simp⟩
  | cons x xs ih =>
    cases hf : (abag x).find? (fun a => a.Key == attr) with
    | some a =>
      cases hp : parseFloat a.Value with
      | some v =>
        have hstep : rankVals attr abag (x :: xs) =
            (rankVals attr abag xs).map (fun ps => (v, x) :: ps) := by
          simp [rankVals, hf, hp]
        rw [hstep] at h
        obtain ⟨qs, hqs, hps⟩ := exceptMap_ok h
        obtain ⟨h1, h2⟩ := ih qs hqs
        subst hps
        refine ⟨by simp [h1], ?_⟩
        intro p hp'
        rcases List.mem_cons.1 hp' with rfl | hmem
        · simp [attrValue, hf, hp]
        · exact h2 p hmem
      | none =>
        have hstep : rankVals attr abag (x :: xs) =
            .error (.ParseError a.Value) := by
          simp [rankVals, hf, hp]
        rw [hstep] at h
        cases h
    | none =>
      have hstep : rankVals attr abag (x :: xs) =
          (rankVals attr abag xs).map (fun ps => (Dec.zero, x) :: ps) := by
        simp [rankVals, hf]
      rw [hstep] at h
      obtain ⟨qs, hqs, hps⟩ := exceptMap_ok h
      obtain ⟨h1, h2⟩ := ih qs hqs
      subst hps
      refine ⟨by simp [h1], ?_⟩
      intro p hp'
      rcases List.mem_cons.1 hp' with rfl | hmem
      · simp [attrValue, hf]
      · exact h2 p hmem

/-- The value collection fails exactly when some entity carries the queried
key with a non-numeric value. -/
theorem rankVals_error_iff {α : Type} (attr : String) (abag : α → Attributes)
    (l : List α) :
    (∃ v, rankVals attr abag l = .error (.ParseError v)) ↔
      ∃ x ∈ l, hasBadValueB attr (abag x) = true := by
  induction l with
  | nil =>
    simp only [rankVals]
    constructor
    · rintro ⟨v, hv⟩; cases hv
    · rintro ⟨x, hx, _⟩; cases hx
  | cons x xs ih =>
    cases hf : (abag x).find? (fun a => a.Key == attr) with
    | some a =>
      cases hp : parseFloat a.Value with
      | some v =>
        have hstep : rankVals attr abag (x :: xs) =
            (rankVals attr abag xs).map (fun ps => (v, x) :: ps) := by
          simp [rankVals, hf, hp]
        have hxgood : hasBadValueB attr (abag x) = false := by
          simp [hasBadValueB, hf, hp]
        rw [hstep]
        constructor
        · rintro ⟨w, hw⟩
          obtain ⟨y, hy, hbad⟩ := ih.1 ⟨w, exceptMap_error hw⟩
          exact ⟨y, List.mem_cons_of_mem _ hy, hbad⟩
        · rintro ⟨y, hy, hbad⟩
          rcases List.mem_cons.1 hy with rfl | hmem
          · rw [hxgood] at hbad; cases hbad
          · obtain ⟨w, hw⟩ := ih.2 ⟨y, hmem, hbad⟩
            exact ⟨w, by rw [hw]; rfl⟩
      | none =>
        have hstep : rankVals attr abag (x :: xs) =
            .error (.ParseError a.Value) := by
          simp [rankVals, hf, hp]
        rw [hstep]
        constructor
        · intro _
          exact ⟨x, List.mem_cons_self x xs, by simp [hasBadValueB, hf, hp]⟩
        · intro _
          exact ⟨a.Value, rfl⟩
    | none =>
      have hstep : rankVals attr abag (x :: xs) =
          (rankVals attr abag xs).map (fun ps => (Dec.zero, x) :: ps) := by
        simp [rankVals, hf]
      have hxgood : hasBadValueB attr (abag x) = false := by
        simp [hasBadValueB, hf]
      rw [hstep]
      constructor
      · rintro ⟨w, hw⟩
        obtain ⟨y, hy, hbad⟩ := ih.1 ⟨w, exceptMap_error hw⟩
        exact ⟨y, List.mem_cons_of_mem _ hy, hbad⟩
      · rintro ⟨y, hy, hbad⟩
        rcases List.mem_cons.1 hy with rfl | hmem
        · rw [hxgood] at hbad; cases hbad
        · obtain ⟨w, hw⟩ := ih.2 ⟨y, hmem, hbad⟩
          exact ⟨w, by rw [hw]; rfl⟩

/-- A successful ranking is a permutation of the enumeration, pairwise
descending by rank value. -/
theorem ranked_ok_spec {α : Type} (attr : String) (abag : α → Attributes)
    (src : List α) (l : List α)
    (h : (rankVals attr abag src).map
      (fun ps => (List.insertionSort descRel ps).map Prod.snd) = .ok l) :
    l.Perm src ∧
      l.Pairwise (fun m n => Dec.le (attrValue attr (abag n)) (attrValue attr (abag m))) := by
  obtain ⟨ps, hps, hl⟩ := exceptMap_ok h
  obtain ⟨hmap, hval⟩ := rankVals_ok attr abag src ps hps
  subst hl
  have hperm0 : (List.insertionSort descRel ps).Perm ps :=
    List.perm_insertionSort descRel ps
  constructor
  · have hp2 := hperm0.map Prod.snd
    rw [hmap] at hp2
    exact hp2
  · have hsorted : (List.insertionSort descRel ps).Pairwise descRel :=
      List.sorted_insertionSort descRel ps
    have hvals : ∀ p ∈ List.insertionSort descRel ps,
        p.1 = attrValue attr (abag p.2) :=
      fun p hp => hval p (hperm0.mem_iff.1 hp)
    rw [List.pairwise_map]
    refine hsorted.imp_of_mem ?_
    intro a b ha hb hr
    have hva := hvals a ha
    have hvb := hvals b hb
    rw [← hva, ← hvb]
    exact hr

/-- C1: whenever `NodesByAttribute` (resp. `EdgesByAttribute`) succeeds, it
returns the full entity list — a permutation of the graph's enumeration, so
no entity is dropped — sorted descending by the attribute value parsed as a
number, an entity missing the attribute ranking as zero. -/
theorem claim_C1 (attr : String) (g : Graph) :
    (∀ l, NodesByAttribute attr g = .ok l → l.Perm g.nodes ∧
      l.Pairwise (fun m n =>
        Dec.le (attrValue attr n.attrs) (attrValue attr m.attrs))) ∧
    (∀ l, EdgesByAttribute attr g = .ok l → l.Perm g.edges ∧
      l.Pairwise (fun d e =>
        Dec.le (attrValue attr e.attrs) (attrValue attr d.attrs))) :=
  ⟨fun l h => ranked_ok_spec attr Node.attrs g.nodes l h,
   fun l h => ranked_ok_spec attr Edge.attrs g.edges l h⟩

/-- First witness node of the ranking example graph, score `3.0`. -/
def nS1 : Node :=
  { NodeID := 1, Name := "A", attrs := [{ Key := "score", Value := "3.0" }] }

/-- Second witness node of the ranking example graph, score `1.0`. -/
def nS2 : Node :=
  { NodeID := 2, Name := "B", attrs := [{ Key := "score", Value := "1.0" }] }

/-- Third witness node of the ranking example graph, score `2.0`. -/
def nS3 : Node :=
  { NodeID := 3, Name := "C", attrs := [{ Key := "score", Value := "2.0" }] }

/-- First witness edge of the ranking example graph, score `1.5`. -/
def eS1 : Edge :=
  { F := nS1, T := nS2, attrs := [{ Key := "score", Value := "1.5" }] }

/-- Second witness edge of the ranking example graph, score `2.5`. -/
def eS2 : Edge :=
  { F := nS2, T := nS3, attrs := [{ Key := "score", Value := "2.5" }] }

/-- The ranking example graph: scores 3.0, 1.0, 2.0 on nodes and 1.5, 2.5
on edges. -/
def gScore : Graph :=
  { nodes := [nS1, nS2, nS3], edges := [eS1, eS2], GraphAttrs := [],
    NodeAttrs := [], EdgeAttrs := [] }

/-- Witness for C1: the spec's ranking example, scores 3.0/1.0/2.0 ranking
as 3.0, 2.0, 1.0. -/
theorem claim_C1_witness :
    (NodesByAttribute "score" gScore = .ok [nS1, nS3, nS2] ∧
      EdgesByAttribute "score" gScore = .ok [eS2, eS1]) ∧
    (([nS1, nS3, nS2] : List Node).Perm gScore.nodes ∧
      ([nS1, nS3, nS2] : List Node).Pairwise (fun m n =>
        Dec.le (attrValue "score" n.attrs) (attrValue "score" m.attrs)) ∧
      ([eS2, eS1] : List Edge).Perm gScore.edges ∧
      ([eS2, eS1] : List Edge).Pairwise (fun d e =>
        Dec.le (attrValue "score" e.attrs) (attrValue "score" d.attrs))) :=
  ⟨⟨rfl, rfl⟩,
   ((claim_C1 "score" gScore).1 [nS1, nS3, nS2] rfl).1,
   ((claim_C1 "score" gScore).1 [nS1, nS3, nS2] rfl).2,
   ((claim_C1 "score" gScore).2 [eS2, eS1] rfl).1,
   ((claim_C1 "score" gScore).2 [eS2, eS1] rfl).2⟩

/-- Failure analysis of a ranking: it fails exactly when some entity carries
the key with non-numeric text, and succeeds otherwise. -/
theorem ranked_error_spec {α : Type} (attr : String) (abag : α → Attributes)
    (src : List α) :
    ((∃ v, (rankVals attr abag src).map
        (fun ps => (List.insertionSort descRel ps).map Prod.snd) =
          .error (.ParseError v)) ↔
      ∃ x ∈ src, hasBadValueB attr (abag x) = true) ∧
    ((∀ x ∈ src, hasBadValueB attr (abag x) = false) →
      ∃ l, (rankVals attr abag src).map
        (fun ps => (List.insertionSort descRel ps).map Prod.snd) = .ok l) := by
  have base := rankVals_error_iff attr abag src
  constructor
  · constructor
    · rintro ⟨v, hv⟩
      exact base.1 ⟨v, exceptMap_error hv⟩
    · intro hex
      obtain ⟨v, hv⟩ := base.2 hex
      exact ⟨v, by rw [hv]; rfl⟩
  · intro hgood
    cases he : rankVals attr abag src with
    | ok ps => exact ⟨_, rfl⟩
    | error err =>
      cases err with
      | ParseError s =>
        obtain ⟨y, hy, hbad⟩ := base.1 ⟨s, he⟩
        rw [hgood y hy] at hbad
        cases hbad

/-- C9: `NodesByAttribute` (resp. `EdgesByAttribute`) fails with a parse
error — returning no entity list — exactly when some entity carries the
queried attribute with a value that does not parse as a number, and
succeeds whenever every present value parses. -/
theorem claim_C9 (attr : String) (g : Graph) :
    ((∃ v, NodesByAttribute attr g = .error (.ParseError v)) ↔
      ∃ n ∈ g.nodes, hasBadValueB attr n.attrs = true) ∧
    ((∀ n ∈ g.nodes, hasBadValueB attr n.attrs = false) →
      ∃ l, NodesByAttribute attr g = .ok l) ∧
    ((∃ v, EdgesByAttribute attr g = .error (.ParseError v)) ↔
      ∃ e ∈ g.edges, hasBadValueB attr e.attrs = true) ∧
    ((∀ e ∈ g.edges, hasBadValueB attr e.attrs = false) →
      ∃ l, EdgesByAttribute attr g = .ok l) :=
  ⟨(ranked_error_spec attr Node.attrs g.nodes).1,
   (ranked_error_spec attr Node.attrs g.nodes).2,
   (ranked_error_spec attr Edge.attrs g.edges).1,
   (ranked_error_spec attr Edge.attrs g.edges).2⟩

/-- A node carrying a non-numeric score value. -/
def nBad : Node :=
  { NodeID := 1, Name := "A", attrs := [{ Key := "score", Value := "abc" }] }

/-- A graph whose only node carries the non-numeric score. -/
def gBadScore : Graph :=
  { nodes := [nBad], edges := [], GraphAttrs := [], NodeAttrs := [],
    EdgeAttrs := [] }

/-- Witness for C9: the graph with the non-numeric score fails, the clean
two-node graph succeeds for nodes and edges. -/
theorem claim_C9_witness :
    ((∃ n ∈ gBadScore.nodes, hasBadValueB "score" n.attrs = true) ∧
      (∀ n ∈ gW.nodes, hasBadValueB "score" n.attrs = false) ∧
      (∀ e ∈ gW.edges, hasBadValueB "score" e.attrs = false)) ∧
    ((∃ v, NodesByAttribute "score" gBadScore = .error (.ParseError v)) ∧
      (∃ l, NodesByAttribute "score" gW = .ok l) ∧
      (∃ l, EdgesByAttribute "score" gW = .ok l)) :=
  ⟨⟨by decide, by decide, by decide⟩,
   (claim_C9 "score" gBadScore).1.2 (by decide),
   (claim_C9 "score" gW).2.1 (by decide),
   (claim_C9 "score" gW).2.2.2 (by decide)⟩

/-- The in-place swap-and-truncate filter loop used by the induced-graph
enumerations (graph.go, `nodeInducedGraph.Nodes`/`Edges`/`From`): starting
at index `i`, an element failing the predicate is overwritten with the last
element and the list shortened; otherwise the index advances. The loop runs
at most `length - i` iterations, here provided as explicit fuel. -/
def swapFilterGo {α : Type} (p : α → Bool) : Nat → List α → Nat → List α
  | 0, l, _ => l
  | fuel + 1, l, i =>
    if h : i < l.length then
      if p (l.get ⟨i, h⟩) then swapFilterGo p fuel l (i + 1)
      else swapFilterGo p fuel
        ((l.set i (l.getLast?.getD (l.get ⟨i, h⟩))).dropLast) i
    else l

/-- The swap-and-truncate filter loop started from index 0 with sufficient
fuel. -/
def swapFilter {α : Type} (p : α → Bool) (l : List α) : List α :=
  swapFilterGo p l.length l 0

/-- Every element surviving the swap filter satisfies the predicate and came
from the input list, provided the fuel suffices and all elements before the
cursor already satisfy the predicate. -/
theorem swapFilterGo_mem {α : Type} (p : α → Bool) (fuel : Nat) (l : List α)
    (i : Nat) (hfuel : l.length ≤ i + fuel)
    (hpre : ∀ j, j < i → ∀ hj : j < l.length, p (l.get ⟨j, hj⟩) = true) :
    ∀ x ∈ swapFilterGo p fuel l i, p x = true ∧ x ∈ l := by
  induction fuel generalizing l i with
  | zero =>
    rw [swapFilterGo]
    intro x hx
    obtain ⟨j, hxj⟩ := List.mem_iff_get.1 hx
    have hjl := j.isLt
    refine ⟨?_, hx⟩
    rw [← hxj]
    exact hpre j.1 (by omega) j.isLt
  | succ fuel ih =>
    rw [swapFilterGo]
    by_cases h : i < l.length
    · rw [dif_pos h]
      by_cases hp : p (l.get ⟨i, h⟩) = true
      · rw [if_pos hp]
        intro x hx
        refine ih l (i + 1) (by omega) ?_ x hx
        intro j hj hjl
        rcases Nat.lt_or_ge j i with hji | hji
        · exact hpre j hji hjl
        · have : j = i := by omega
          subst this
          exact hp
      · rw [if_neg hp]
        intro x hx
        have hlen2 :
            ((l.set i (l.getLast?.getD (l.get ⟨i, h⟩))).dropLast).length =
              l.length - 1 := by simp
        have hsub :
            ∀ y ∈ (l.set i (l.getLast?.getD (l.get ⟨i, h⟩))).dropLast,
              y ∈ l := by
          intro y hy
          have hy2 : y ∈ l.set i (l.getLast?.getD (l.get ⟨i, h⟩)) :=
            List.dropLast_subset _ hy
          rcases List.mem_or_eq_of_mem_set hy2 with hmem | rfl
          · exact hmem
          · have hne : l ≠ [] := by
              intro hnil
              rw [hnil] at h
              simp at h
            rw [List.getLast?_eq_getLast l hne]
            exact List.getLast_mem hne
        have hpre2 : ∀ j, j < i →
            ∀ hj : j < ((l.set i (l.getLast?.getD (l.get ⟨i, h⟩))).dropLast).length,
            p (((l.set i (l.getLast?.getD (l.get ⟨i, h⟩))).dropLast).get ⟨j, hj⟩) =
              true := by
          intro j hj hjl
          have hjl2 : j < l.length := by rw [hlen2] at hjl; omega
          have hij : i ≠ j := by omega
          have hgl :
              (((l.set i (l.getLast?.getD (l.get ⟨i, h⟩))).dropLast).get ⟨j, hjl⟩) =
                l.get ⟨j, hjl2⟩ := by
            show ((l.set i (l.getLast?.getD (l.get ⟨i, h⟩))).dropLast)[j] = l[j]
            rw [List.getElem_dropLast, List.getElem_set_ne hij]
          rw [hgl]
          exact hpre j hj hjl2
        obtain ⟨hpx, hxl2⟩ := ih _ i (by rw [hlen2]; omega) hpre2 x hx
        exact ⟨hpx, hsub x hxl2⟩
    · rw [dif_neg h]
      intro x hx
      obtain ⟨j, hxj⟩ := List.mem_iff_get.1 hx
      have hjl := j.isLt
      refine ⟨?_, hx⟩
      rw [← hxj]
      exact hpre j.1 (by omega) j.isLt

/-- Every element surviving the swap filter satisfies the predicate and came
from the input list. -/
theorem swapFilter_mem {α : Type} (p : α → Bool) (l : List α) :
    ∀ x ∈ swapFilter p l, p x = true ∧ x ∈ l :=
  swapFilterGo_mem p l.length l 0 (by omega) (fun j hj _ => absurd hj (by omega))

/-- `nodeInducedGraph` (graph.go lines 158-161): the underlying graph
together with the selection set of node IDs (the Go `map[int64]bool`
modelled by list membership). -/
structure nodeInducedGraph where
  G : Graph
  sel : List Int

/-- `Induce` (graph.go lines 147-156): build the induced view over the IDs
of the given nodes. -/
def Induce (g : Graph) (sub : List Node) : nodeInducedGraph :=
  { G := g, sel := sub.map Node.NodeID }

/-- `nodeInducedGraph.Node` (graph.go lines 163-168): an absent result
unless the ID is selected, else the underlying lookup. -/
def nodeInducedGraph.NodeById (ig : nodeInducedGraph) (id : Int) : Option Node :=
  if ig.sel.contains id then ig.G.NodeById id else none

/-- `nodeInducedGraph.Nodes` (graph.go lines 170-180): enumerate the
underlying nodes, swap-filtering out those not selected. -/
def nodeInducedGraph.Nodes (ig : nodeInducedGraph) : List Node :=
  swapFilter (fun n => ig.sel.contains n.NodeID) ig.G.nodes

/-- `nodeInducedGraph.Edges` (graph.go lines 182-192): enumerate the
underlying edges, swap-filtering out those with a non-selected endpoint. -/
def nodeInducedGraph.Edges (ig : nodeInducedGraph) : List Edge :=
  swapFilter
    (fun e => ig.sel.contains e.F.NodeID && ig.sel.contains e.T.NodeID)
    ig.G.edges

/-- C4: for an induced subgraph over a selection: every enumerated node has
its ID selected; every enumerated edge has both endpoint IDs selected; and
the by-ID lookup returns a node only when its ID is selected (otherwise an
absent result). -/
theorem claim_C4 (g : Graph) (sub : List Node) :
    (∀ n ∈ (Induce g sub).Nodes,
      (Induce g sub).sel.contains n.NodeID = true) ∧
    (∀ e ∈ (Induce g sub).Edges,
      (Induce g sub).sel.contains e.F.NodeID = true ∧
        (Induce g sub).sel.contains e.T.NodeID = true) ∧
    (∀ id n, (Induce g sub).NodeById id = some n →
      (Induce g sub).sel.contains n.NodeID = true) := by
  refine ⟨?_, ?_, ?_⟩
  · intro n hn
    exact (swapFilter_mem _ _ n hn).1
  · intro e he
    have hb := (swapFilter_mem _ _ e he).1
    constructor
    · exact Bool.and_elim_left hb
    · exact Bool.and_elim_right hb
  · intro id n hn
    unfold nodeInducedGraph.NodeById at hn
    by_cases hsel : (Induce g sub).sel.contains id = true
    · rw [if_pos hsel] at hn
      have hfind := List.find?_some hn
      have : n.NodeID = id := eq_of_beq hfind
      rw [this]
      exact hsel
    · rw [if_neg (by simpa using hsel)] at hn
      cases hn

/-- Witness for C4: inducing the two-node graph on node 1 only. -/
theorem claim_C4_witness :
    (nW1 ∈ (Induce gW [nW1]).Nodes ∧
      (Induce gW [nW1]).NodeById 1 = some nW1) ∧
    ((Induce gW [nW1]).sel.contains nW1.NodeID = true ∧
      (Induce gW [nW1]).sel.contains nW1.NodeID = true) :=
  ⟨⟨by decide, by decide⟩,
   (claim_C4 gW [nW1]).1 nW1 (by decide),
   (claim_C4 gW [nW1]).2.2 1 nW1 (by decide)⟩

/-- The per-member update of `Clique` (analysis.go lines 153-168 of the
current revision), applied when a node is a member of surviving clique
number `i`: when the node's "clique_count" value reads empty, an existing
"clique" pair is extended in place with ",i"; otherwise, or when no
"clique" pair exists, the attributes are written through
`Set("clique", i)` and `Set("clique_count", "")`. -/
def cliqueTouch (i : Nat) (n : Node) : Node :=
  let attrs := n.attrs
  let found : Option Attributes :=
    if Attributes.get attrs "clique_count" = "" then
      match attrs.findIdx? (fun a => a.Key == "clique") with
      | some j =>
        let old := (attrs.getD j { Key := "", Value := "" }).Value
        some (attrs.set j { Key := "clique", Value := old ++ "," ++ toString i })
      | none => none
    else none
  match found with
  | some attrs2 => { n with attrs := attrs2 }
  | none =>
    let a1 : Attribute := { Key := "clique", Value := toString i }
    let a2 : Attribute := { Key := "clique_count", Value := "" }
    { n with attrs := Attributes.setAttribute (Attributes.setAttribute attrs a1) a2 }

/-- Update the node carrying the given ID (`nodes[n.ID()]` through the
NodeMap, analysis.go; node IDs are unique in a graph). A member ID absent
from the graph is a caller error in Go (nil dereference); here it leaves
the list unchanged. -/
def updateNode (nodes : List Node) (id : Int) (f : Node → Node) : List Node :=
  nodes.map (fun m => if m.NodeID == id then f m else m)

/-- The labelling pass of `Clique` (analysis.go lines 139-171): cliques
smaller than `k` are skipped, the label counter advances only for surviving
cliques, and each member node of a surviving clique is updated with
`cliqueTouch`. The raw clique sequence — the external `topo.BronKerbosch`
result, not under src/ — is an input, per spec §4.5; members are node
IDs. -/
def cliqueApply (cliques : List (List Int)) (k : Nat) (nodes : List Node) :
    List Node :=
  (cliques.foldl
    (fun (acc : List Node × Nat) c =>
      if c.length < k then acc
      else
        (c.foldl (fun ns id => updateNode ns id (cliqueTouch acc.2)) acc.1,
          acc.2 + 1))
    (nodes, 0)).1

/-- The number of comma-separated fields of a string,
`len(strings.Split(s, ","))`. -/
def commaFields (s : String) : Nat := s.toList.count ',' + 1

/-- The closing pass of `Clique` (analysis.go lines 172-179): every node
carrying a "clique" attribute gets "clique_count" set to its number of
comma-separated labels. -/
def cliqueCountPass (nodes : List Node) : List Node :=
  nodes.map (fun n =>
    match n.attrs.find? (fun a => a.Key == "clique") with
    | some a =>
      let a2 : Attribute :=
        { Key := "clique_count", Value := toString (commaFields a.Value) }
      { n with attrs := Attributes.setAttribute n.attrs a2 }
    | none => n)

/-- `Clique` (analysis.go lines 139-180): label the surviving cliques, then
write the membership counts. -/
def Clique (g : Graph) (cliques : List (List Int)) (k : Nat) : Graph :=
  { g with nodes := cliqueCountPass (cliqueApply cliques k g.nodes) }

/-- Convenience: the value of a node attribute, looked up by node ID. -/
def getNodeAttr (g : Graph) (id : Int) (key : String) : String :=
  match g.NodeById id with
  | some n => n.attrs.get key
  | none => ""

/-- Skipped cliques leave the fold state untouched: the labelling pass only
sees the cliques of size at least `k`. -/
theorem cliqueApply_filter (cliques : List (List Int)) (k : Nat)
    (nodes : List Node) :
    cliqueApply cliques k nodes =
      cliqueApply (cliques.filter (fun c => decide (k ≤ c.length))) k nodes := by
  unfold cliqueApply
  congr 1
  generalize (nodes, 0) = acc
  induction cliques generalizing acc with
  | nil => rfl
  | cons c cs ih =>
    by_cases hc : c.length < k
    · have hfc : (decide (k ≤ c.length)) = false := by
        simp only [decide_eq_false_iff_not]
        omega
      rw [List.filter_cons_of_neg (by simp [hfc])]
      simp only [List.foldl_cons, if_pos hc]
      exact ih acc
    · have hfc : (decide (k ≤ c.length)) = true := by
        simp only [decide_eq_true_eq]
        omega
      rw [List.filter_cons_of_pos (by simp [hfc])]
      simp only [List.foldl_cons, if_neg hc]
      exact ih _

/-- Node A of the clique example graph. -/
def nA : Node := { NodeID := 1, Name := "A", attrs := [] }

/-- Node B of the clique example graph. -/
def nB : Node := { NodeID := 2, Name := "B", attrs := [] }

/-- Node C of the clique example graph. -/
def nC : Node := { NodeID := 3, Name := "C", attrs := [] }

/-- Node D of the clique example graph. -/
def nD : Node := { NodeID := 4, Name := "D", attrs := [] }

/-- The fresh clique example graph with nodes A, B, C, D. -/
def gClq : Graph :=
  { nodes := [nA, nB, nC, nD], edges := [], GraphAttrs := [], NodeAttrs := [],
    EdgeAttrs := [] }

/-- The example raw clique sequence: {A,B,C} then {B,C,D}, by node ID. -/
def mcEx : List (List Int) := [[1, 2, 3], [2, 3, 4]]

/-- C5: clique aggregation discards cliques smaller than `k` (the labelling
pass is unchanged by dropping them), labels survivors sequentially from 0
in the order produced, and on the fresh example graph with cliques {A,B,C}
and {B,C,D} at `k = 3`, node B ends with "clique" `"0,1"` and
"clique_count" `"2"`, and node A ends with "clique" `"0"`. -/
theorem claim_C5 :
    (∀ cliques k nodes, cliqueApply cliques k nodes =
      cliqueApply (cliques.filter (fun c => decide (k ≤ c.length))) k nodes) ∧
    (getNodeAttr (Clique gClq mcEx 3) 2 "clique" = "0,1" ∧
      getNodeAttr (Clique gClq mcEx 3) 2 "clique_count" = "2" ∧
      getNodeAttr (Clique gClq mcEx 3) 1 "clique" = "0") :=
  ⟨cliqueApply_filter, by decide, by decide, by decide⟩

/-- C8 counterexample: on the example graph, A's "clique" value after a
second run is still `"0"` — not `"0,0"`, the accumulation of the new label
onto the prior comma-joined value that the claim asserts. -/
theorem claim_C8_counterexample :
    getNodeAttr (Clique gClq mcEx 3) 1 "clique" = "0" ∧
    getNodeAttr (Clique (Clique gClq mcEx 3) mcEx 3) 1 "clique" = "0" ∧
    getNodeAttr (Clique (Clique gClq mcEx 3) mcEx 3) 1 "clique" ≠
      getNodeAttr (Clique gClq mcEx 3) 1 "clique" ++ ",0" :=
  ⟨by decide, by decide, by decide⟩

/-- C8 amended: re-running the clique aggregation on a graph already
carrying "clique"/"clique_count" attributes replaces the labels rather than
accumulating them — the guard on a non-empty "clique_count" value suppresses
the in-place append, `Set("clique", i)` overwrites the prior value and
`Set("clique_count", "")` removes the count — so the second run reproduces
the first run's attributes exactly. -/
theorem claim_C8_amended :
    Clique (Clique gClq mcEx 3) mcEx 3 = Clique gClq mcEx 3 ∧
    getNodeAttr (Clique (Clique gClq mcEx 3) mcEx 3) 2 "clique" = "0,1" ∧
    getNodeAttr (Clique (Clique gClq mcEx 3) mcEx 3) 2 "clique_count" = "2" :=
  ⟨by decide, by decide, by decide⟩

end Graphprac
